import Mathlib

/-
Verification of the resume-artifact assembly and fitting pipeline of the
job-search backend (src/app/backend).  Shallow embedding of:

  * the resume record schema and the selection filter
    (main.py, `filter_resume_data`),
  * the content merger (main.py, `merge_resume_data`),
  * the fit engine (pdf_services.py, `get_trimmed_skills_list`,
    `preprocess_data_for_fitting`),
  * the variable resolver (utils.py, `merge_variables`; main.py,
    `render_pdf` cascading),
  * the version store (main.py, `get_resume_versions` / `generate_resume`
    numbering) as a transition system over the set of stored version numbers,
  * the finalize operation (main.py, `finalize_resume`) as a function over an
    abstract disk state.

The document renderer (reportlab) is external: its single-line measurement
(`Paragraph.wrap` followed by the `h <= style.leading * 1.5` check) is
abstracted as a boolean oracle `fits : String → Bool`, a pure function of the
rendered fragment, with the style and maximum width folded into the oracle as
the renderer contract in the spec (§6) prescribes.
-/

/- ===================== Data model (spec §3) ===================== -/

/-- Contact block of a resume record (keys used by `filter_resume_data` and
`create_contact_info`). -/
structure ContactInfo where
  email : Option String
  location : Option String
  phone : Option String
  linkedin : Option String
  github : Option String
  medium : Option String
deriving DecidableEq

/-- One education entry (main.py renders school/location/degree/dates,
optional gpa and courses). -/
structure EducationEntry where
  school : String
  location : String
  degree : String
  dates : String
  gpa : Option String
  courses : Option String
deriving DecidableEq

/-- One experience entry (company/title/location/dates plus bullet list). -/
structure ExperienceEntry where
  company : String
  title : String
  location : String
  dates : String
  bullets : List String
deriving DecidableEq

/-- One project entry. -/
structure ProjectEntry where
  title : String
  dates : Option String
  bullets : List String
deriving DecidableEq

/-- One certification entry. -/
structure CertEntry where
  title : String
  issuer : String
  date : String
  description : List String
deriving DecidableEq

/-- A skill block: one Python dict mapping category names to ordered skill
lists, embedded as an association list. -/
def SkillBlock : Type := List (String × List String)

instance : DecidableEq SkillBlock := by
  unfold SkillBlock
  infer_instance

/-- The resume record schema shared by fixed, generated, merged, filtered and
finalized resumes.  Each top-level Python dict key becomes an optional field
(absent key = `none`). -/
structure ResumeRecord where
  name : Option String
  contact : Option ContactInfo
  summary : Option String
  skills : Option (List SkillBlock)
  education : Option (List EducationEntry)
  experience : Option (List ExperienceEntry)
  projects : Option (List ProjectEntry)
  certifications : Option (List CertEntry)
deriving DecidableEq

/-- The LLM-generated partial record consumed by `merge_resume_data`:
`experience_bullets` entries are dicts with an optional `bullets` key. -/
structure GeneratedExpEntry where
  bullets : Option (List String)
deriving DecidableEq

/-- The generated partial record (keys `summary`, `skills_reordered`,
`experience_bullets`, `projects_reordered` of the parsed LLM output). -/
structure GeneratedData where
  summary : Option String
  skills_reordered : Option (List SkillBlock)
  experience_bullets : Option (List GeneratedExpEntry)
  projects_reordered : Option (List ProjectEntry)
deriving DecidableEq

/-- The user selection map.  `sectionSel sec` models the value stored under
key `select-<sec>`, `itemSel sec i` the value under `select-<sec>-<i>`, and
the two contact fields the values under `contact-email` / `contact-location`
(`none` = key absent, mirroring `selections.get(key, True)`). -/
structure SelectionMap where
  sectionSel : String → Option Bool
  itemSel : String → Nat → Option Bool
  contactEmail : Option String
  contactLocation : Option String

/- ===================== SelectionFilter (main.py, filter_resume_data) ===================== -/

/-- `selections.get(f'select-{sec}-{i}', True)` of main.py line 222. -/
def keepItem (sel : SelectionMap) (sec : String) (i : Nat) : Bool :=
  (sel.itemSel sec i).getD true

/-- The item loop of main.py lines 217-223: iterate with positional index `i`
starting at `start`, keeping exactly the items whose key is not explicitly
false. -/
def filterItems {α : Type} (keep : Nat → Bool) : Nat → List α → List α
  | _, [] => []
  | i, a :: as =>
    if keep i then a :: filterItems keep (i + 1) as else filterItems keep (i + 1) as

/-- Section handling of main.py lines 205-229 for a list-valued section:
drop the section when its `select-<sec>` key is explicitly false, otherwise
keep the items selected by `select-<sec>-<i>`; a section whose surviving item
list is empty is deleted (lines 225-227). -/
def filterListSection {α : Type} (sel : SelectionMap) (sec : String) :
    Option (List α) → Option (List α)
  | none => none
  | some items =>
    if (sel.sectionSel sec).getD true then
      let kept := filterItems (keepItem sel sec) 0 items
      if kept.isEmpty then none else some kept
    else none

/-- Section handling for the scalar-valued `summary` section: only the
section-level checkbox applies (the `isinstance(..., list)` test at line 216
fails for a string). -/
def filterScalarSection {α : Type} (sel : SelectionMap) (sec : String) :
    Option α → Option α
  | none => none
  | some v => if (sel.sectionSel sec).getD true then some v else none

/-- Contact dropdown overrides of main.py lines 197-201. -/
def applyContactOverrides (sel : SelectionMap) (c : ContactInfo) : ContactInfo :=
  { c with
    email := match sel.contactEmail with
      | some e => some e
      | none => c.email
    location := match sel.contactLocation with
      | some l => some l
      | none => c.location }

/-- main.py `filter_resume_data`: contact overrides, then section-level and
item-level filtering over the sections
summary/skills/education/experience/projects/certifications.  `name` is not in
`sections_to_process`, so it is always carried over. -/
def filter_resume_data (data : ResumeRecord) (sel : SelectionMap) : ResumeRecord :=
  { name := data.name
    contact := data.contact.map (applyContactOverrides sel)
    summary := filterScalarSection sel "summary" data.summary
    skills := filterListSection sel "skills" data.skills
    education := filterListSection sel "education" data.education
    experience := filterListSection sel "experience" data.experience
    projects := filterListSection sel "projects" data.projects
    certifications := filterListSection sel "certifications" data.certifications }

/-- Length of an optional list (0 when the key is absent). -/
def optLen {α : Type} : Option (List α) → Nat
  | none => 0
  | some l => l.length

/-- The item-level exclusions of section `sec` keep a prefix of the original
`n`-element list: every explicitly excluded index is followed only by excluded
indices. -/
def PrefixKept (sel : SelectionMap) (sec : String) (n : Nat) : Prop :=
  ∀ i, i < n → ∀ j, j < n → i ≤ j →
    keepItem sel sec i = false → keepItem sel sec j = false

instance (sel : SelectionMap) (sec : String) (n : Nat) :
    Decidable (PrefixKept sel sec n) := by
  unfold PrefixKept
  infer_instance

/- ===================== ContentMerger (main.py, merge_resume_data) ===================== -/

/-- The indexed bullet-replacement loop of main.py lines 154-156: the
generated bullet-set at index `i` replaces the bullets of the fixed
experience entry at index `i`; surplus entries on either side are left
alone / ignored. -/
def mergeBullets : List ExperienceEntry → List GeneratedExpEntry → List ExperienceEntry
  | [], _ => []
  | es, [] => es
  | e :: es, g :: gs => { e with bullets := g.bullets.getD [] } :: mergeBullets es gs

/-- main.py `merge_resume_data`: the record the function returns. -/
def merge_resume_data (fixed : ResumeRecord) (gen : GeneratedData) : ResumeRecord :=
  let r1 := match gen.summary with
    | some s => { fixed with summary := some s }
    | none => fixed
  let r2 := match gen.skills_reordered with
    | some sk => { r1 with skills := some sk }
    | none => r1
  let r3 := match gen.experience_bullets, r2.experience with
    | some gbs, some exp => { r2 with experience := some (mergeBullets exp gbs) }
    | _, _ => r2
  match gen.projects_reordered with
  | some ps => { r3 with projects := some ps }
  | none => r3

/-- Contents of the `fixed_data` argument after `merge_resume_data` returns.
`final_resume = fixed_data.copy()` (main.py line 143) is a shallow copy, so
`final_resume['experience']` is the same list object as
`fixed_data['experience']` and the item assignment
`final_resume['experience'][i]['bullets'] = ...` (line 156) writes through to
the entries of the fixed input; every other statement of the function only
rebinds keys of the copied top-level dict and leaves `fixed_data` alone. -/
def merge_fixed_after (fixed : ResumeRecord) (gen : GeneratedData) : ResumeRecord :=
  match gen.experience_bullets, fixed.experience with
  | some gbs, some exp => { fixed with experience := some (mergeBullets exp gbs) }
  | _, _ => fixed

/- ===================== FitEngine (pdf_services.py) ===================== -/

/-- `base_text = f"<b>{category}:</b> "` of pdf_services.py line 83. -/
def baseText (category : String) : String :=
  "<b>" ++ category ++ ":</b> "

/-- Python `", ".join(skills)`. -/
def joinComma : List String → String
  | [] => ""
  | [s] => s
  | s :: rest => s ++ ", " ++ joinComma rest

/-- The fragment measured by the fit loop: bold category label followed by
the comma-joined skill list. -/
def renderLine (category : String) (skills : List String) : String :=
  baseText category ++ joinComma skills

/-- The while loop of `get_trimmed_skills_list` (pdf_services.py lines
86-101), driven by a fuel counter.  The loop pops exactly one element per
iteration, so running it with fuel equal to the current list length is the
loop itself; the `0, l` case with `l` nonempty is unreachable under that
invariant. -/
def trimSkillsAux (fits : String → Bool) (cat : String) : Nat → List String → List String
  | _, [] => if fits (baseText cat) then [""] else []
  | 0, l => l
  | fuel + 1, l => if fits (renderLine cat l) then l else trimSkillsAux fits cat fuel l.dropLast

/-- pdf_services.py `get_trimmed_skills_list`: repeatedly drop the last skill
until the rendered line fits; when the list empties, return `[""]` if the
bare bold label fits and `[]` otherwise. -/
def get_trimmed_skills_list (fits : String → Bool) (cat : String) (skills : List String) :
    List String :=
  trimSkillsAux fits cat skills.length skills

/-- pdf_services.py `preprocess_data_for_fitting`: when a nonempty `skills`
list is present, replace every category's skill list by its trimmed version;
the style and usable width of the original are folded into `fits`. -/
def preprocess_data_for_fitting (fits : String → Bool) (data : ResumeRecord) : ResumeRecord :=
  match data.skills with
  | some (b :: bs) =>
    { data with
      skills := some ((b :: bs).map (fun block =>
        block.map (fun p => (p.1, get_trimmed_skills_list fits p.1 p.2)))) }
  | _ => data

/- ===================== VariableResolver (utils.py, merge_variables) ===================== -/

/-- A nested formatting-variable tree, as produced by parsing variables.yaml:
a value is either a scalar (`leaf`) or a dict, and a dict is a `nil`/`cons`
chain of key-value bindings in insertion order (Python dicts preserve
insertion order; assignment to an existing key keeps its position, a new key
is appended). -/
inductive VarTree where
  | leaf : Int → VarTree
  | nil : VarTree
  | cons : String → VarTree → VarTree → VarTree
deriving DecidableEq

/-- Python `isinstance(value, dict)`. -/
def VarTree.isMap : VarTree → Bool
  | .leaf _ => false
  | _ => true

/-- Dict lookup `d.get(key)` (first binding wins; Python dicts have unique
keys). -/
def VarTree.lookup : VarTree → String → Option VarTree
  | .cons k v rest, key => if k = key then some v else rest.lookup key
  | _, _ => none

/-- Dict assignment `d[key] = val`: replace the binding in place if the key
exists, otherwise append the new binding. -/
def VarTree.setKey : VarTree → String → VarTree → VarTree
  | .cons k v rest, key, val =>
    if k = key then .cons k val rest else .cons k v (rest.setKey key val)
  | _, key, val => .cons key val .nil

/-- `hasKey` (`key in d`). -/
def VarTree.hasKey : VarTree → String → Bool
  | .cons k _ rest, key => k == key || rest.hasKey key
  | _, _ => false

/-- The recursive dict merge of utils.py `merge_variables` (lines 44-51):
iterate over the update entries in order; when both the update value and the
existing value are dicts, recurse, otherwise the update value overwrites. -/
def mergeVM (base : VarTree) : VarTree → VarTree
  | .cons k v rest =>
    let newV :=
      if v.isMap then
        match base.lookup k with
        | some old => if old.isMap then mergeVM old v else v
        | none => v
      else v
    mergeVM (base.setKey k newV) rest
  | _ => base

/-- utils.py `merge_variables`, including the `updates is None` no-op branch
(lines 41-42).  The Python function deep-copies `base` and only reads
`updates`, so it has no effect on either input and this embedding as a pure
function is exact. -/
def merge_variables (base : VarTree) : Option VarTree → VarTree
  | none => base
  | some updates => mergeVM base updates

/-- The cascading resolution of main.py `render_pdf` lines 462-470: built-in
defaults, then the per-application override, then the per-request override. -/
def resolve_variables (defaults : VarTree) (appOv reqOv : Option VarTree) : VarTree :=
  merge_variables (merge_variables defaults appOv) reqOv

/-- Follow a key path through nested dicts. -/
def pathLookup : VarTree → List String → Option VarTree
  | t, [] => some t
  | t, k :: ks =>
    match t.lookup k with
    | some v => pathLookup v ks
    | none => none

/-- The override tree does not bind anything along the key path: walking the
path, a key is missing while every binding passed through was itself a dict.
This is the precise sense in which a path is absent from an override layer
(a binding of a path proper segment to a scalar would overwrite the whole
subtree, per the replace-wholesale rule). -/
def untouched : VarTree → List String → Bool
  | _, [] => false
  | t, k :: ks =>
    match t.lookup k with
    | none => true
    | some v => v.isMap && untouched v ks

/-- Keys are duplicate-free at every level, as holds for any tree obtained
from a parsed YAML/JSON mapping (Python dict keys are unique). -/
def keysNodup : VarTree → Bool
  | .leaf _ => true
  | .nil => true
  | .cons k v rest => !(rest.hasKey k) && keysNodup v && keysNodup rest

/- ===================== VersionStore (main.py, version numbering) ===================== -/

/-- Version-number allocation of main.py `generate_resume` lines 420-421:
`max(version_numbers) + 1 if version_numbers else 1`, where
`version_numbers` are the integers extracted from the
`tailored_resume_v<n>.yaml` artifacts currently on disk (the legacy
unnumbered `tailored_resume.yaml` does not match the `_v(\d+).yaml` pattern
and never contributes).  The store state is embedded as the list of stored
version numbers. -/
def new_version_num : List Nat → Nat
  | [] => 1
  | v :: vs => vs.foldl Nat.max v + 1

/-- Operations on one application's version store: a `generate_resume` call
(`create`) or an out-of-band deletion of a stored version's artifact. -/
inductive VOp where
  | create : VOp
  | delete : Nat → VOp
deriving DecidableEq

/-- Effect of one operation: `create` persists a record under the freshly
allocated number and returns the number; `delete n` removes artifact `n`. -/
def applyOp (s : List Nat) : VOp → List Nat × Option Nat
  | .create => (new_version_num s :: s, some (new_version_num s))
  | .delete n => (s.erase n, none)

/-- Run a sequence of operations, collecting the numbers returned by the
`create` calls in order. -/
def runOps : List Nat → List VOp → List Nat × List Nat
  | s, [] => (s, [])
  | s, op :: rest =>
    let p := applyOp s op
    let q := runOps p.1 rest
    (q.1, p.2.toList ++ q.2)

/-- Number of `create` operations in a sequence. -/
def countCreates : List VOp → Nat
  | [] => 0
  | .create :: rest => countCreates rest + 1
  | .delete _ :: rest => countCreates rest

/-- Every deletion in the sequence removes a version that is present but not
the latest (a strictly larger version number exists at that moment). -/
def OkOps : List Nat → List VOp → Prop
  | _, [] => True
  | s, .create :: rest => OkOps (new_version_num s :: s) rest
  | s, .delete n :: rest => (∃ m ∈ s, n < m) ∧ OkOps (s.erase n) rest

instance instDecOkOps : (s : List Nat) → (ops : List VOp) → Decidable (OkOps s ops)
  | _, [] => isTrue trivial
  | s, .create :: rest => instDecOkOps (new_version_num s :: s) rest
  | s, .delete n :: rest =>
    @instDecidableAnd _ _ inferInstance (instDecOkOps (s.erase n) rest)

/-- The list `a, a+1, ..., a+n-1` of `n` consecutive numbers. -/
def consecFrom : Nat → Nat → List Nat
  | _, 0 => []
  | a, n + 1 => a :: consecFrom (a + 1) n

/- ===================== ArtifactFinalizer (main.py, finalize_resume) ===================== -/

/-- Failure modes of a finalize call: the request YAML fails to parse (400),
the record has no name (400), or the PDF generation try-block raises (500). -/
inductive FinalizeErr where
  | invalidYaml
  | missingName
  | renderFailure
deriving DecidableEq

/-- The per-application on-disk state touched by `finalize_resume`:
the `finalized_resume.yaml` slot, the finalized PDF (identified by the
record it was rendered from), and the `name` / `finalizedBaseVersion`
entries of `app_details.json`. -/
structure DiskState where
  finalizedYaml : Option ResumeRecord
  finalizedPdf : Option ResumeRecord
  detailsName : Option String
  finalizedBaseVersion : Option String
deriving DecidableEq

/-- main.py line 526: `"".join(c if c.isalnum() else '_' for c in name)` —
a character-wise map over the name string. -/
def safe_name (s : String) : String :=
  String.mk (s.data.map (fun c => if c.isAlphanum then c else '_'))

/-- Steps 2 and the name guard of `finalize_resume` (main.py lines 504-511):
filter, then re-attach the name from the original record if filtering lost
it, failing when neither record has a name.  (In this embedding the filter
always carries the name, so the fallback branch fires exactly when the
original record lacks one.) -/
def finalize_record (data : ResumeRecord) (sel : SelectionMap) : Option ResumeRecord :=
  let filtered := filter_resume_data data sel
  match filtered.name with
  | some _ => some filtered
  | none =>
    match data.name with
    | some n => some { filtered with name := some n }
    | none => none

/-- main.py `finalize_resume` as a transition on the abstract disk state.
`parsedYaml` is the outcome of `yaml.safe_load(request.resumeYaml)` (`none` =
parse error), `renderOk` is whether the PDF try-block (lines 519-541,
dominated by the document renderer's layout in `generate_pdf_from_data`)
succeeds.  Faithful ordering: the filtered record is written to the
`finalized_resume.yaml` slot (lines 513-516) BEFORE the try-block; on a
render failure the exception is re-raised with the YAML slot already
overwritten; only on success are the PDF and the `app_details` provenance
written.  Errors carry the disk state at the moment of the raise. -/
def finalize_resume (fits : String → Bool) (renderOk : Bool) (st : DiskState)
    (parsedYaml : Option ResumeRecord) (sel : SelectionMap) (baseVersionFile : String) :
    Except (FinalizeErr × DiskState) DiskState :=
  match parsedYaml with
  | none => .error (.invalidYaml, st)
  | some data =>
    match finalize_record data sel with
    | none => .error (.missingName, st)
    | some finalData =>
      let st1 : DiskState := { st with finalizedYaml := some finalData }
      if renderOk then
        let trimmed := preprocess_data_for_fitting fits finalData
        .ok { st1 with
              finalizedPdf := some trimmed
              detailsName := some (safe_name (finalData.name.getD ""))
              finalizedBaseVersion := some baseVersionFile }
      else
        .error (.renderFailure, st1)

/- ===================== Concrete instances used by witnesses and counterexamples ===================== -/

/-- Selection map with no keys at all (everything kept). -/
def selNone : SelectionMap :=
  { sectionSel := fun _ => none
    itemSel := fun _ _ => none
    contactEmail := none
    contactLocation := none }

/-- Selection map whose only key is `select-experience-0: false`. -/
def selCex : SelectionMap :=
  { sectionSel := fun _ => none
    itemSel := fun sec i => if sec = "experience" ∧ i = 0 then some false else none
    contactEmail := none
    contactLocation := none }

/-- Selection map excluding all project items from index 1 on (a suffix). -/
def selSuffix : SelectionMap :=
  { sectionSel := fun _ => none
    itemSel := fun sec i => if sec = "projects" ∧ 1 ≤ i then some false else none
    contactEmail := none
    contactLocation := none }

def expA : ExperienceEntry := ⟨"CoA", "T1", "L1", "D1", ["b1"]⟩

def expB : ExperienceEntry := ⟨"CoB", "T2", "L2", "D2", ["b2"]⟩

def projW (i : Nat) : ProjectEntry := ⟨"P" ++ toString i, none, []⟩

/-- Record with two experience entries. -/
def recCex : ResumeRecord :=
  { name := some "A", contact := none, summary := none, skills := none
    education := none, experience := some [expA, expB], projects := none
    certifications := none }

/-- Record with three project entries. -/
def recPrefW : ResumeRecord :=
  { name := some "N", contact := none, summary := none, skills := none
    education := none, experience := none, projects := some [projW 0, projW 1, projW 2]
    certifications := none }

/-- Measure oracle: a line fits iff its length is at most 10 characters
(the bold label `<b>X:</b> ` is exactly 10 characters long). -/
def fitsCex : String → Bool := fun t => t.length ≤ 10

/-- Measure oracle: a line fits iff its length is at most 12 characters. -/
def fitsC2 : String → Bool := fun t => t.length ≤ 12

/-- Measure oracle reporting that nothing ever fits. -/
def fitsNever : String → Bool := fun _ => false

/-- A previously finalized record occupying the finalized slot. -/
def recOldW : ResumeRecord :=
  { name := some "B", contact := none, summary := none, skills := none
    education := none, experience := none, projects := none, certifications := none }

/-- Disk state holding a previously finalized resume. -/
def stW : DiskState := ⟨some recOldW, none, none, none⟩

/-- Disk state after the failed finalize run on `stW`: the finalized YAML
slot already overwritten, everything else untouched. -/
def st1W : DiskState := ⟨some recCex, none, none, none⟩

/-- Record whose skills do not all fit and get trimmed. -/
def recSkillW : ResumeRecord :=
  { name := some "A", contact := none, summary := none
    skills := some [[("X", ["ab", "cd"])]]
    education := none, experience := none, projects := none, certifications := none }

/-- `recSkillW` after fitting under `fitsC2`: the category keeps only its
first skill. -/
def recTrimW : ResumeRecord :=
  { recSkillW with skills := some [[("X", ["ab"])]] }

/-- Empty disk state. -/
def st0W : DiskState := ⟨none, none, none, none⟩

/-- Disk state after the successful finalize run on `st0W`. -/
def stOkW : DiskState := ⟨some recSkillW, some recTrimW, some "A", some "v1"⟩

/-- Fixed record with one experience entry, for the merge counterexample. -/
def fixedC6 : ResumeRecord :=
  { name := some "F", contact := none, summary := none, skills := none
    education := none, experience := some [expA], projects := none, certifications := none }

/-- Generated data supplying one replacement bullet-set. -/
def genC6 : GeneratedData :=
  { summary := none, skills_reordered := none
    experience_bullets := some [⟨some ["new"]⟩], projects_reordered := none }

/-- Fixed record with two experience entries. -/
def fixedC7 : ResumeRecord :=
  { name := some "F", contact := none, summary := none, skills := none
    education := none, experience := some [expA, expB], projects := none
    certifications := none }

/-- Generated data with fewer bullet-sets than the fixed experience list. -/
def genC7 : GeneratedData :=
  { summary := none, skills_reordered := none
    experience_bullets := some [⟨some ["n1"]⟩], projects_reordered := none }

/-- Operation sequence whose deletions only remove non-latest versions. -/
def opsOkW : List VOp := [.create, .create, .delete 1, .create]

/-- Operation sequence deleting the latest version and then creating again. -/
def opsReuseW : List VOp := [.create, .create, .delete 2, .create]

/-- Default variable tree `x: (y: 1), z: 2`. -/
def dfltW : VarTree :=
  .cons "x" (.cons "y" (.leaf 1) .nil) (.cons "z" (.leaf 2) .nil)

/-- Application override `x: (y: 5)`. -/
def appW : VarTree := .cons "x" (.cons "y" (.leaf 5) .nil) .nil

/-- Request override `x: (y: 9)`. -/
def reqW : VarTree := .cons "x" (.cons "y" (.leaf 9) .nil) .nil

/- ===================== FitEngine lemmas ===================== -/

theorem trim_eq_nil (fits : String → Bool) (cat : String) :
    get_trimmed_skills_list fits cat [] = if fits (baseText cat) then [""] else [] := rfl

theorem trim_eq_cons (fits : String → Bool) (cat : String) (l : List String) (h : l ≠ []) :
    get_trimmed_skills_list fits cat l =
      if fits (renderLine cat l) then l
      else get_trimmed_skills_list fits cat l.dropLast := by
  cases l with
  | nil => exact absurd rfl h
  | cons a as =>
    show trimSkillsAux fits cat (as.length + 1) (a :: as) = _
    simp only [trimSkillsAux, get_trimmed_skills_list, List.length_dropLast_cons]

/-- Rendered line of the `[""]` sentinel: the bare bold label. -/
theorem renderLine_sentinel (cat : String) : renderLine cat [""] = baseText cat := by
  simp [renderLine, joinComma]

/-- Rendered line of the empty list: also the bare bold label. -/
theorem renderLine_nil (cat : String) : renderLine cat [] = baseText cat := by
  simp [renderLine, joinComma]

/-- Case analysis of the fit loop's result: either a nonempty take-prefix of
the input whose line the oracle accepts, or the `[""]` sentinel (label fits),
or `[]` (even the label overflows). -/
theorem trim_spec (fits : String → Bool) (cat : String) (skills : List String) :
    (get_trimmed_skills_list fits cat skills ≠ [] ∧
      (∃ n, n ≤ skills.length ∧ get_trimmed_skills_list fits cat skills = skills.take n) ∧
      fits (renderLine cat (get_trimmed_skills_list fits cat skills)) = true) ∨
    (get_trimmed_skills_list fits cat skills = [""] ∧ fits (baseText cat) = true) ∨
    (get_trimmed_skills_list fits cat skills = [] ∧ fits (baseText cat) = false) := by
  generalize hn : skills.length = n
  induction n generalizing skills with
  | zero =>
    have hskills : skills = [] := List.length_eq_zero.mp hn
    subst hskills
    rw [trim_eq_nil]
    by_cases hb : fits (baseText cat) = true
    · right; left; simp [hb]
    · right; right; simp [hb]
  | succ n ih =>
    have hne : skills ≠ [] := by
      intro h; subst h; simp at hn
    rw [trim_eq_cons fits cat skills hne]
    by_cases hf : fits (renderLine cat skills) = true
    · left
      rw [if_pos hf]
      exact ⟨hne, ⟨skills.length, by omega, (List.take_length skills).symm⟩, hf⟩
    · rw [if_neg hf]
      have hdl : skills.dropLast.length = n := by
        simp [List.length_dropLast, hn]
      rcases ih skills.dropLast hdl with ⟨hne', ⟨m, hm, heq⟩, hfits⟩ | hb | hc
      · left
        refine ⟨hne', ⟨m, ?_, ?_⟩, hfits⟩
        · omega
        · rw [heq, List.dropLast_eq_take, List.take_take]
          congr 1
          omega
      · right; left; exact hb
      · right; right; exact hc

/-- When no nonempty take-prefix of the list fits, the loop runs the list
down to empty and the result is decided by the bare label alone. -/
theorem trim_all_unfit (fits : String → Bool) (cat : String) (skills : List String)
    (h : ∀ k, 0 < k → k ≤ skills.length → fits (renderLine cat (skills.take k)) = false) :
    get_trimmed_skills_list fits cat skills = if fits (baseText cat) then [""] else [] := by
  generalize hn : skills.length = n
  induction n generalizing skills with
  | zero =>
    have hskills : skills = [] := List.length_eq_zero.mp hn
    subst hskills
    exact trim_eq_nil fits cat
  | succ n ih =>
    have hne : skills ≠ [] := by
      intro hx; subst hx; simp at hn
    have hlast : fits (renderLine cat skills) = false := by
      have := h skills.length (by omega) (le_refl _)
      rwa [List.take_length] at this
    rw [trim_eq_cons fits cat skills hne, hlast]
    simp only [Bool.false_eq_true, if_false]
    have hdl : skills.dropLast.length = n := by
      simp [List.length_dropLast, hn]
    refine ih skills.dropLast ?_ hdl
    intro k hk0 hkn
    have hksk : skills.dropLast.take k = skills.take k := by
      rw [List.dropLast_eq_take, List.take_take]
      congr 1
      omega
    rw [hksk]
    exact h k hk0 (by omega)

/- ===================== SelectionFilter lemmas ===================== -/

theorem filterItems_shift {α : Type} (keep : Nat → Bool) (l : List α) :
    ∀ s, filterItems keep (s + 1) l = filterItems (fun i => keep (i + 1)) s l := by
  induction l with
  | nil => intro s; rfl
  | cons a as ih =>
    intro s
    simp only [filterItems]
    rw [ih (s + 1)]

theorem filterItems_allFalse {α : Type} (keep : Nat → Bool) :
    ∀ (l : List α) (s : Nat), (∀ i, i < l.length → keep (s + i) = false) →
      filterItems keep s l = [] := by
  intro l
  induction l with
  | nil => intro s _; rfl
  | cons a as ih =>
    intro s h
    have h0 : keep s = false := by simpa using h 0 (by simp)
    simp only [filterItems, h0, Bool.false_eq_true, if_false]
    refine ih (s + 1) ?_
    intro i hi
    have he : s + 1 + i = s + (i + 1) := by omega
    rw [he]
    exact h (i + 1) (by simpa using Nat.succ_lt_succ hi)

theorem filterItems_idem {α : Type} :
    ∀ (l : List α) (keep : Nat → Bool),
      (∀ i j, i ≤ j → j < l.length → keep i = false → keep j = false) →
      filterItems keep 0 (filterItems keep 0 l) = filterItems keep 0 l := by
  intro l
  induction l with
  | nil => intro keep _; rfl
  | cons a as ih =>
    intro keep h
    by_cases h0 : keep 0 = true
    · have hstep : filterItems keep 0 (a :: as) = a :: filterItems keep 1 as := by
        simp [filterItems, h0]
      rw [hstep]
      have hstep2 : filterItems keep 0 (a :: filterItems keep 1 as) =
          a :: filterItems keep 1 (filterItems keep 1 as) := by
        simp [filterItems, h0]
      rw [hstep2]
      have e1 : filterItems keep 1 as = filterItems (fun i => keep (i + 1)) 0 as := by
        simpa using filterItems_shift keep as 0
      have e2 : filterItems keep 1 (filterItems keep 1 as) =
          filterItems (fun i => keep (i + 1)) 0 (filterItems (fun i => keep (i + 1)) 0 as) := by
        rw [e1]
        simpa using filterItems_shift keep (filterItems (fun i => keep (i + 1)) 0 as) 0
      rw [e2, e1]
      congr 1
      refine ih (fun i => keep (i + 1)) ?_
      intro i j hij hj hf
      exact h (i + 1) (j + 1) (by omega) (by simpa using Nat.succ_lt_succ hj) hf
    · have h0' : keep 0 = false := by
        cases hk : keep 0
        · rfl
        · exact absurd hk h0
      have hall : ∀ i, i < (a :: as).length → keep (0 + i) = false := by
        intro i hi
        rcases Nat.eq_zero_or_pos i with rfl | hp
        · simpa using h0'
        · have := h 0 i (Nat.zero_le i) hi h0'
          simpa using this
      have hempty : filterItems keep 0 (a :: as) = [] :=
        filterItems_allFalse keep (a :: as) 0 hall
      rw [hempty]
      rfl

theorem filterListSection_idem {α : Type} (sel : SelectionMap) (sec : String)
    (o : Option (List α)) (h : PrefixKept sel sec (optLen o)) :
    filterListSection sel sec (filterListSection sel sec o) = filterListSection sel sec o := by
  cases o with
  | none => rfl
  | some items =>
    by_cases hs : (sel.sectionSel sec).getD true = true
    · have hidem : filterItems (keepItem sel sec) 0 (filterItems (keepItem sel sec) 0 items) =
          filterItems (keepItem sel sec) 0 items := by
        refine filterItems_idem items (keepItem sel sec) ?_
        intro i j hij hj hf
        have hlen : optLen (some items) = items.length := rfl
        exact h i (by omega) j (by omega) hij hf
      by_cases hk : (filterItems (keepItem sel sec) 0 items).isEmpty = true
      · simp [filterListSection, hs, hk]
      · have hk' : (filterItems (keepItem sel sec) 0 items).isEmpty = false := by
          cases hki : (filterItems (keepItem sel sec) 0 items).isEmpty
          · rfl
          · exact absurd hki hk
        simp [filterListSection, hs, hk', hidem]
    · have hs' : (sel.sectionSel sec).getD true = false := by
        cases hsv : (sel.sectionSel sec).getD true
        · rfl
        · exact absurd hsv hs
      simp [filterListSection, hs']

theorem filterScalarSection_idem {α : Type} (sel : SelectionMap) (sec : String)
    (o : Option α) :
    filterScalarSection sel sec (filterScalarSection sel sec o) =
      filterScalarSection sel sec o := by
  cases o with
  | none => rfl
  | some v =>
    by_cases hs : (sel.sectionSel sec).getD true = true <;>
      simp [filterScalarSection, hs]

theorem applyContactOverrides_idem (sel : SelectionMap) (c : ContactInfo) :
    applyContactOverrides sel (applyContactOverrides sel c) = applyContactOverrides sel c := by
  cases he : sel.contactEmail <;> cases hl : sel.contactLocation <;>
    simp [applyContactOverrides, he, hl]

theorem contact_map_idem (sel : SelectionMap) (o : Option ContactInfo) :
    (o.map (applyContactOverrides sel)).map (applyContactOverrides sel) =
      o.map (applyContactOverrides sel) := by
  cases o with
  | none => rfl
  | some c => simp [applyContactOverrides_idem]

/- ===================== ContentMerger lemmas ===================== -/

theorem mergeBullets_length :
    ∀ (es : List ExperienceEntry) (gs : List GeneratedExpEntry),
      (mergeBullets es gs).length = es.length := by
  intro es
  induction es with
  | nil => intro gs; cases gs <;> rfl
  | cons e es ih =>
    intro gs
    cases gs with
    | nil => rfl
    | cons g gs => simp [mergeBullets, ih]

theorem mergeBullets_getElem? :
    ∀ (es : List ExperienceEntry) (gs : List GeneratedExpEntry) (i : Nat),
      (mergeBullets es gs)[i]? =
        match es[i]?, gs[i]? with
        | some e, some g => some { e with bullets := g.bullets.getD [] }
        | some e, none => some e
        | none, _ => none := by
  intro es
  induction es with
  | nil =>
    intro gs i
    cases gs <;> simp [mergeBullets]
  | cons e es ih =>
    intro gs i
    cases gs with
    | nil =>
      cases hx : (e :: es)[i]? <;> simp [mergeBullets, hx]
    | cons g gs =>
      cases i with
      | zero => simp [mergeBullets]
      | succ i => simpa [mergeBullets] using ih gs i

theorem merge_experience_eq (fixed : ResumeRecord) (gen : GeneratedData)
    (gbs : List GeneratedExpEntry) (exp : List ExperienceEntry)
    (hg : gen.experience_bullets = some gbs) (hf : fixed.experience = some exp) :
    (merge_resume_data fixed gen).experience = some (mergeBullets exp gbs) := by
  unfold merge_resume_data
  cases hs : gen.summary <;> cases hk : gen.skills_reordered <;>
    cases hp : gen.projects_reordered <;>
      simp [hg, hf, hs, hk, hp]

theorem merge_untouched_fields (fixed : ResumeRecord) (gen : GeneratedData) :
    (merge_resume_data fixed gen).name = fixed.name ∧
    (merge_resume_data fixed gen).contact = fixed.contact ∧
    (merge_resume_data fixed gen).education = fixed.education ∧
    (merge_resume_data fixed gen).certifications = fixed.certifications := by
  unfold merge_resume_data
  cases hs : gen.summary <;> cases hk : gen.skills_reordered <;>
    cases he : gen.experience_bullets <;> cases hp : gen.projects_reordered <;>
      cases hfe : fixed.experience <;> simp [hs, hk, he, hp, hfe]

theorem merge_fixed_after_eq (fixed : ResumeRecord) (gen : GeneratedData) :
    merge_fixed_after fixed gen =
      { fixed with experience := (merge_resume_data fixed gen).experience } := by
  unfold merge_resume_data merge_fixed_after
  cases hs : gen.summary <;> cases hk : gen.skills_reordered <;>
    cases he : gen.experience_bullets <;> cases hp : gen.projects_reordered <;>
      cases hfe : fixed.experience <;>
        simp [hs, hk, he, hp, hfe] <;> (conv_rhs => rw [← hfe])

/- ===================== VariableResolver lemmas ===================== -/

theorem lookup_setKey_same (t : VarTree) (k : String) (v : VarTree) :
    (t.setKey k v).lookup k = some v := by
  induction t with
  | leaf n => simp [VarTree.setKey, VarTree.lookup]
  | nil => simp [VarTree.setKey, VarTree.lookup]
  | cons k0 v0 rest ihv ihrest =>
    by_cases hk : k0 = k
    · subst hk
      simp [VarTree.setKey, VarTree.lookup]
    · simp [VarTree.setKey, VarTree.lookup, hk, ihrest]

theorem lookup_setKey_ne (t : VarTree) (k' k : String) (v : VarTree) (h : k' ≠ k) :
    (t.setKey k' v).lookup k = t.lookup k := by
  induction t with
  | leaf n => simp [VarTree.setKey, VarTree.lookup, h]
  | nil => simp [VarTree.setKey, VarTree.lookup, h]
  | cons k0 v0 rest ihv ihrest =>
    by_cases hk : k0 = k'
    · subst hk
      simp [VarTree.setKey, VarTree.lookup, h]
    · by_cases hk0 : k0 = k <;>
        simp [VarTree.setKey, VarTree.lookup, hk, hk0, ihrest, Ne.symm h]

theorem mergeVM_lookup_of_hasKey_false (upd : VarTree) (k : String) :
    upd.hasKey k = false → ∀ base : VarTree, (mergeVM base upd).lookup k = base.lookup k := by
  induction upd with
  | leaf n => intro _ base; rfl
  | nil => intro _ base; rfl
  | cons k0 v0 rest ihv ihrest =>
    intro h base
    have h' : ¬(k0 = k) ∧ rest.hasKey k = false := by
      simpa [VarTree.hasKey] using h
    simp only [mergeVM]
    rw [ihrest h'.2]
    exact lookup_setKey_ne base k0 k _ h'.1

theorem pathLookup_none_of_untouched (p : List String) :
    ∀ t : VarTree, untouched t p = true → pathLookup t p = none := by
  induction p with
  | nil => intro t h; simp [untouched] at h
  | cons k ks ih =>
    intro t h
    cases hl : t.lookup k with
    | none => simp [pathLookup, hl]
    | some v =>
      have hv : v.isMap = true ∧ untouched v ks = true := by
        simpa [untouched, hl] using h
      simp [pathLookup, hl, ih v hv.2]

/-- Looking up the key just merged, under the rest of the update entries,
none of which rebinds it. -/
theorem pathLookup_merge_rest (rest : VarTree) (k0 : String)
    (hk0 : rest.hasKey k0 = false) (base W : VarTree) (ks : List String) :
    pathLookup (mergeVM (base.setKey k0 W) rest) (k0 :: ks) = pathLookup W ks := by
  simp [pathLookup, mergeVM_lookup_of_hasKey_false rest k0 hk0, lookup_setKey_same]

theorem keysNodup_cons (k0 : String) (v0 rest : VarTree)
    (hn : keysNodup (.cons k0 v0 rest) = true) :
    rest.hasKey k0 = false ∧ keysNodup v0 = true ∧ keysNodup rest = true := by
  simpa [keysNodup, Bool.and_assoc] using hn

theorem mergeVM_pathLookup_leaf (upd : VarTree) :
    keysNodup upd = true →
    ∀ (base : VarTree) (k : String) (ks : List String) (n : Int),
      pathLookup upd (k :: ks) = some (.leaf n) →
      pathLookup (mergeVM base upd) (k :: ks) = some (.leaf n) := by
  induction upd with
  | leaf m => intro _ base k ks n h; simp [pathLookup, VarTree.lookup] at h
  | nil => intro _ base k ks n h; simp [pathLookup, VarTree.lookup] at h
  | cons k0 v0 rest ihv ihrest =>
    intro hn base k ks n h
    obtain ⟨h1, h2, h3⟩ := keysNodup_cons k0 v0 rest hn
    by_cases hk : k0 = k
    · subst hk
      have hpv : pathLookup v0 ks = some (.leaf n) := by
        simpa [pathLookup, VarTree.lookup] using h
      simp only [mergeVM]
      rw [pathLookup_merge_rest rest k0 h1 base _ ks]
      cases ks with
      | nil =>
        have hv0 : v0 = .leaf n := by simpa [pathLookup] using hpv
        subst hv0
        simp [VarTree.isMap, pathLookup]
      | cons k2 ks2 =>
        cases v0 with
        | leaf m => simp [pathLookup, VarTree.lookup] at hpv
        | nil => simp [pathLookup, VarTree.lookup] at hpv
        | cons ka va ra =>
          rw [if_pos (show (VarTree.cons ka va ra).isMap = true from rfl)]
          cases hbl : base.lookup k0 with
          | none => exact hpv
          | some old =>
            cases hoi : old.isMap with
            | false => simpa [hoi] using hpv
            | true => simpa [hoi] using ihv h2 old k2 ks2 n hpv
    · have hrest : pathLookup rest (k :: ks) = some (.leaf n) := by
        cases hrl : rest.lookup k <;>
          · simp only [pathLookup, VarTree.lookup, hk, if_false, hrl] at h ⊢
            exact h
      simp only [mergeVM]
      exact ihrest h3 _ k ks n hrest

theorem mergeVM_pathLookup_untouched (upd : VarTree) :
    keysNodup upd = true →
    ∀ (p : List String) (base : VarTree),
      untouched upd p = true →
      pathLookup (mergeVM base upd) p = pathLookup base p := by
  induction upd with
  | leaf m => intro _ p base _; rfl
  | nil => intro _ p base _; rfl
  | cons k0 v0 rest ihv ihrest =>
    intro hn p base h
    obtain ⟨h1, h2, h3⟩ := keysNodup_cons k0 v0 rest hn
    cases p with
    | nil => simp [untouched] at h
    | cons k ks =>
      by_cases hk : k0 = k
      · subst hk
        have hu : v0.isMap = true ∧ untouched v0 ks = true := by
          simpa [untouched, VarTree.lookup] using h
        simp only [mergeVM]
        rw [pathLookup_merge_rest rest k0 h1 base _ ks]
        rw [if_pos hu.1]
        cases hbl : base.lookup k0 with
        | none =>
          simp [pathLookup, hbl, pathLookup_none_of_untouched ks v0 hu.2]
        | some old =>
          cases hoi : old.isMap with
          | true =>
            simp only [hoi, if_true]
            rw [ihv h2 ks old hu.2]
            simp [pathLookup, hbl]
          | false =>
            simp only [hoi, Bool.false_eq_true, if_false]
            rw [pathLookup_none_of_untouched ks v0 hu.2]
            cases ks with
            | nil => simp [untouched] at hu
            | cons k2 ks2 =>
              cases old with
              | leaf m2 => simp [pathLookup, hbl, VarTree.lookup]
              | nil => simp [VarTree.isMap] at hoi
              | cons kb vb rb => simp [VarTree.isMap] at hoi
      · have hu : untouched rest (k :: ks) = true := by
          simp only [untouched, VarTree.lookup, hk, if_false] at h
          exact h
        simp only [mergeVM]
        rw [ihrest h3 (k :: ks) _ hu]
        simp only [pathLookup]
        rw [lookup_setKey_ne base k0 k _ hk]

/- ===================== VersionStore lemmas ===================== -/

theorem le_foldl_max_init : ∀ (vs : List Nat) (v : Nat), v ≤ vs.foldl Nat.max v := by
  intro vs
  induction vs with
  | nil => intro v; exact le_refl v
  | cons w ws ih =>
    intro v
    rw [List.foldl_cons]
    exact le_trans (Nat.le_max_left v w) (ih (Nat.max v w))

theorem le_max_all : ∀ (vs : List Nat) (v x : Nat), x ∈ v :: vs → x ≤ vs.foldl Nat.max v := by
  intro vs
  induction vs with
  | nil =>
    intro v x hx
    simp at hx
    exact le_of_eq hx
  | cons w ws ih =>
    intro v x hx
    rw [List.foldl_cons]
    rcases List.mem_cons.mp hx with rfl | hx'
    · exact le_trans (Nat.le_max_left x w) (le_foldl_max_init ws (Nat.max x w))
    · rcases List.mem_cons.mp hx' with rfl | hx''
      · exact le_trans (Nat.le_max_right v x) (le_foldl_max_init ws (Nat.max v x))
      · exact ih (Nat.max v w) x (List.mem_cons_of_mem _ hx'')

theorem foldl_max_mem : ∀ (vs : List Nat) (v : Nat),
    vs.foldl Nat.max v = v ∨ vs.foldl Nat.max v ∈ vs := by
  intro vs
  induction vs with
  | nil => intro v; exact Or.inl rfl
  | cons w ws ih =>
    intro v
    rw [List.foldl_cons]
    rcases ih (Nat.max v w) with hm | hm
    · rw [hm]
      rcases Nat.le_total v w with hvw | hvw
      · right
        have he : Nat.max v w = w := Nat.max_eq_right hvw
        rw [he]
        exact List.mem_cons_self w ws
      · left
        exact Nat.max_eq_left hvw
    · right
      exact List.mem_cons_of_mem w hm

theorem lt_new_version_num (s : List Nat) : ∀ x ∈ s, x < new_version_num s := by
  cases s with
  | nil => intro x hx; simp at hx
  | cons v vs =>
    intro x hx
    have h := le_max_all vs v x hx
    show x < vs.foldl Nat.max v + 1
    omega

theorem new_version_num_pos (s : List Nat) : 1 ≤ new_version_num s := by
  cases s with
  | nil => exact le_refl 1
  | cons v vs =>
    show 1 ≤ vs.foldl Nat.max v + 1
    omega

theorem foldl_max_of_bounded : ∀ (vs : List Nat) (a : Nat),
    (∀ x ∈ vs, x ≤ a) → vs.foldl Nat.max a = a := by
  intro vs
  induction vs with
  | nil => intro a _; rfl
  | cons w ws ih =>
    intro a h
    have hw : w ≤ a := h w (List.mem_cons_self w ws)
    have he : Nat.max a w = a := Nat.max_eq_left hw
    rw [List.foldl_cons, he]
    exact ih a (fun x hx => h x (List.mem_cons_of_mem w hx))

theorem new_version_num_insert (s : List Nat) :
    new_version_num (new_version_num s :: s) = new_version_num s + 1 := by
  show s.foldl Nat.max (new_version_num s) + 1 = new_version_num s + 1
  rw [foldl_max_of_bounded s (new_version_num s)
    (fun x hx => le_of_lt (lt_new_version_num s x hx))]

theorem new_version_num_le_of_bounded (t : List Nat) (B : Nat) (hB : 1 ≤ B)
    (h : ∀ x ∈ t, x < B) : new_version_num t ≤ B := by
  cases t with
  | nil => exact hB
  | cons v vs =>
    have hmem : vs.foldl Nat.max v ∈ v :: vs := by
      rcases foldl_max_mem vs v with he | he
      · rw [he]; exact List.mem_cons_self v vs
      · exact List.mem_cons_of_mem v he
    have hb := h _ hmem
    show vs.foldl Nat.max v + 1 ≤ B
    omega

theorem new_version_num_erase (s : List Nat) (n m : Nat) (hm : m ∈ s) (hlt : n < m) :
    new_version_num (s.erase n) = new_version_num s := by
  refine le_antisymm ?_ ?_
  · refine new_version_num_le_of_bounded (s.erase n) (new_version_num s)
      (new_version_num_pos s) ?_
    intro x hx
    exact lt_new_version_num s x (List.mem_of_mem_erase hx)
  · cases s with
    | nil => simp at hm
    | cons v vs =>
      have hmem : vs.foldl Nat.max v ∈ v :: vs := by
        rcases foldl_max_mem vs v with he | he
        · rw [he]; exact List.mem_cons_self v vs
        · exact List.mem_cons_of_mem v he
      have hge : m ≤ vs.foldl Nat.max v := le_max_all vs v m hm
      have hne : vs.foldl Nat.max v ≠ n := by omega
      have hmem' : vs.foldl Nat.max v ∈ (v :: vs).erase n :=
        (List.mem_erase_of_ne hne).mpr hmem
      have hlt' := lt_new_version_num ((v :: vs).erase n) _ hmem'
      show vs.foldl Nat.max v + 1 ≤ new_version_num ((v :: vs).erase n)
      omega

theorem runOps_returns (ops : List VOp) :
    ∀ s : List Nat, OkOps s ops →
      (runOps s ops).2 = consecFrom (new_version_num s) (countCreates ops) := by
  induction ops with
  | nil => intro s _; rfl
  | cons op rest ih =>
    intro s h
    cases op with
    | create =>
      have h' : OkOps (new_version_num s :: s) rest := h
      show new_version_num s :: (runOps (new_version_num s :: s) rest).2 =
        consecFrom (new_version_num s) (countCreates rest + 1)
      rw [ih _ h', new_version_num_insert s]
      rfl
    | delete n =>
      obtain ⟨⟨m, hm, hlt⟩, h'⟩ := h
      show (runOps (s.erase n) rest).2 = consecFrom (new_version_num s) (countCreates rest)
      rw [ih _ h', new_version_num_erase s n m hm hlt]

theorem consecFrom_chain (n : Nat) : ∀ a : Nat,
    List.Chain' (fun x y => y = x + 1) (consecFrom a n) := by
  induction n with
  | zero => intro a; exact List.chain'_nil
  | succ n ih =>
    intro a
    cases n with
    | zero => exact List.chain'_singleton a
    | succ n2 =>
      refine List.chain'_cons.mpr ⟨rfl, ?_⟩
      exact ih (a + 1)

theorem consecFrom_mem (n : Nat) : ∀ (a x : Nat), x ∈ consecFrom a n → a ≤ x := by
  induction n with
  | zero => intro a x hx; simp [consecFrom] at hx
  | succ n ih =>
    intro a x hx
    rcases List.mem_cons.mp hx with rfl | hx'
    · exact le_refl x
    · have := ih (a + 1) x hx'
      omega

theorem consecFrom_nodup (n : Nat) : ∀ a : Nat, (consecFrom a n).Nodup := by
  induction n with
  | zero => intro a; exact List.nodup_nil
  | succ n ih =>
    intro a
    refine List.nodup_cons.mpr ⟨?_, ih (a + 1)⟩
    intro hmem
    have := consecFrom_mem n (a + 1) a hmem
    omega

/- ===================== Claim theorems ===================== -/

/-- C4 counterexample: the claim as stated is false.  With two experience
entries and the single selection key `select-experience-0: false`, the first
filter keeps only the second entry; re-applying the same selection map
re-evaluates index 0 against the already-filtered list and removes the
surviving entry (and with it the whole section), so the second application is
not a no-op. -/
theorem selection_filter_idem_counterexample :
    filter_resume_data (filter_resume_data recCex selCex) selCex ≠
      filter_resume_data recCex selCex := by decide

/-- C4 (amended): selection filtering is idempotent provided that, in each
list-valued section, the item-level exclusions keep a prefix of the original
list (every explicitly excluded index below the section length is followed
only by excluded indices).  In general the `select-<section>-<index>` keys
are positional in whatever record the filter receives, so re-applying a map
with interior exclusions re-interprets the indices against the
already-filtered list and can remove further items. -/
theorem selection_filter_idem_amended (r : ResumeRecord) (sel : SelectionMap)
    (hsk : PrefixKept sel "skills" (optLen r.skills))
    (hed : PrefixKept sel "education" (optLen r.education))
    (hex : PrefixKept sel "experience" (optLen r.experience))
    (hpr : PrefixKept sel "projects" (optLen r.projects))
    (hce : PrefixKept sel "certifications" (optLen r.certifications)) :
    filter_resume_data (filter_resume_data r sel) sel = filter_resume_data r sel := by
  unfold filter_resume_data
  dsimp only
  rw [contact_map_idem sel r.contact,
      filterScalarSection_idem sel "summary" r.summary,
      filterListSection_idem sel "skills" r.skills hsk,
      filterListSection_idem sel "education" r.education hed,
      filterListSection_idem sel "experience" r.experience hex,
      filterListSection_idem sel "projects" r.projects hpr,
      filterListSection_idem sel "certifications" r.certifications hce]

/-- C4 witness: a record with three projects and a selection map excluding
the suffix from index 1 on satisfies the prefix condition, and filtering is
idempotent there. -/
theorem selection_filter_idem_witness :
    PrefixKept selSuffix "projects" (optLen recPrefW.projects) ∧
    filter_resume_data (filter_resume_data recPrefW selSuffix) selSuffix =
      filter_resume_data recPrefW selSuffix :=
  ⟨by decide, selection_filter_idem_amended recPrefW selSuffix (by decide) (by decide)
    (by decide) (by decide) (by decide)⟩

/-- C5 counterexample: the claim as stated is false.  Under a measure by
which the label `<b>X:</b> ` (10 characters) fits but `<b>X:</b> ab` does
not, `get_trimmed_skills_list` on `["ab"]` pops the only skill and returns
the sentinel `[""]`, which is not a take-prefix of the input list. -/
theorem fit_correctness_counterexample :
    ¬ ((∃ n, n ≤ (["ab"] : List String).length ∧
          get_trimmed_skills_list fitsCex "X" ["ab"] = (["ab"] : List String).take n) ∧
        fitsCex (renderLine "X" (get_trimmed_skills_list fitsCex "X" ["ab"])) = true) := by
  rintro ⟨⟨n, hn, heq⟩, -⟩
  have hlen : (["ab"] : List String).length = 1 := rfl
  have hres : get_trimmed_skills_list fitsCex "X" ["ab"] = [""] := by decide
  rw [hres] at heq
  rcases n with _ | _ | n
  · exact absurd heq (by decide)
  · exact absurd heq (by decide)
  · rw [hlen] at hn
    omega

/-- C5 (amended): `get_trimmed_skills_list` returns either (i) a take-prefix
of the input whose rendered line the measure reports as fitting, or (ii) the
sentinel `[""]` when trimming exhausted the list but the bare bold label
fits (its rendered line is the bare label, which fits), or (iii) `[]`
exactly when even the bare label overflows (its rendered line is reported as
not fitting). -/
theorem fit_correctness_amended (fits : String → Bool) (cat : String)
    (skills : List String) :
    ((∃ n, n ≤ skills.length ∧
        get_trimmed_skills_list fits cat skills = skills.take n) ∧
      fits (renderLine cat (get_trimmed_skills_list fits cat skills)) = true) ∨
    (get_trimmed_skills_list fits cat skills = [""] ∧
      fits (renderLine cat [""]) = true) ∨
    (get_trimmed_skills_list fits cat skills = [] ∧
      fits (renderLine cat []) = false) := by
  rcases trim_spec fits cat skills with ⟨_, hpre, hfits⟩ | ⟨heq, hb⟩ | ⟨heq, hb⟩
  · exact Or.inl ⟨hpre, hfits⟩
  · refine Or.inr (Or.inl ⟨heq, ?_⟩)
    rw [renderLine_sentinel]
    exact hb
  · refine Or.inr (Or.inr ⟨heq, ?_⟩)
    rw [renderLine_nil]
    exact hb

/-- C9: the fit loop is idempotent: trimming an already trimmed list returns
it unchanged, for any (pure) measure oracle, category, skill list, style and
width (style and width are folded into the oracle). -/
theorem fit_idempotent (fits : String → Bool) (cat : String) (skills : List String) :
    get_trimmed_skills_list fits cat (get_trimmed_skills_list fits cat skills) =
      get_trimmed_skills_list fits cat skills := by
  rcases trim_spec fits cat skills with ⟨hne, -, hfits⟩ | ⟨heq, hb⟩ | ⟨heq, hb⟩
  · rw [trim_eq_cons fits cat _ hne, hfits]
    simp
  · rw [heq, trim_eq_cons fits cat [""] (by simp), renderLine_sentinel, hb]
    simp
  · rw [heq, trim_eq_nil, hb]
    simp

/-- C10: whenever the skill list becomes empty during trimming (no nonempty
take-prefix fits, which covers the empty input), the loop returns `[""]` if
the bare bold category label fits on one line and `[]` exactly when even the
label alone overflows. -/
theorem fit_empty_sentinel (fits : String → Bool) (cat : String) (skills : List String)
    (h : ∀ k, 0 < k → k ≤ skills.length →
      fits (renderLine cat (skills.take k)) = false) :
    get_trimmed_skills_list fits cat skills = if fits (baseText cat) then [""] else [] :=
  trim_all_unfit fits cat skills h

/-- C10 witness: under the never-fits oracle the hypothesis holds for
`["a", "b"]` and the result is the empty list. -/
theorem fit_empty_sentinel_witness :
    (∀ k, 0 < k → k ≤ (["a", "b"] : List String).length →
      fitsNever (renderLine "X" ((["a", "b"] : List String).take k)) = false) ∧
    get_trimmed_skills_list fitsNever "X" ["a", "b"] =
      (if fitsNever (baseText "X") then [""] else []) :=
  ⟨fun _ _ _ => rfl, fit_empty_sentinel fitsNever "X" ["a", "b"] (fun _ _ _ => rfl)⟩

/-- C6 counterexample: the claim as stated is false, because merge mutates
the fixed input.  `final_resume = fixed_data.copy()` is a shallow copy, so
the bullet assignment writes through to the fixed record's experience
entries: after merging a generated bullet-set `["new"]` over a fixed entry
with bullets `["b1"]`, the fixed input's entry has bullets `["new"]`. -/
theorem merge_purity_counterexample : merge_fixed_after fixedC6 genC6 ≠ fixedC6 := by
  decide

/-- C6 (amended): merge never mutates the generated input, and the merged
output's name, contact, education and certifications equal those of the
fixed input; but the fixed input itself is only shallow-copied, so when
generated supplies experience bullet-sets (and fixed has an experience list)
the fixed record's experience entries are mutated in place — after the call
the fixed record's experience equals the merged experience — while every
other field of the fixed input is left unmutated. -/
theorem merge_frame_amended (fixed : ResumeRecord) (gen : GeneratedData) :
    (merge_resume_data fixed gen).name = fixed.name ∧
    (merge_resume_data fixed gen).contact = fixed.contact ∧
    (merge_resume_data fixed gen).education = fixed.education ∧
    (merge_resume_data fixed gen).certifications = fixed.certifications ∧
    merge_fixed_after fixed gen =
      { fixed with experience := (merge_resume_data fixed gen).experience } :=
  ⟨(merge_untouched_fields fixed gen).1, (merge_untouched_fields fixed gen).2.1,
   (merge_untouched_fields fixed gen).2.2.1, (merge_untouched_fields fixed gen).2.2.2,
   merge_fixed_after_eq fixed gen⟩

/-- C7: when generated supplies experience bullet-sets and fixed has an
experience list, the merged experience list has the same length as the fixed
one; company, title, location and dates are preserved at every index; at an
index covered by the generated list the bullets become that bullet-set
(defaulting to `[]` when its `bullets` key is absent); past the end of the
generated list the fixed entries are untouched; generated entries past the
fixed length are ignored (length preservation). -/
theorem merge_experience_pointwise (fixed : ResumeRecord) (gen : GeneratedData)
    (gbs : List GeneratedExpEntry) (exp : List ExperienceEntry)
    (hg : gen.experience_bullets = some gbs) (hf : fixed.experience = some exp) :
    ∃ exp', (merge_resume_data fixed gen).experience = some exp' ∧
      exp'.length = exp.length ∧
      (∀ i : Nat, (exp'[i]?).map ExperienceEntry.company =
        (exp[i]?).map ExperienceEntry.company) ∧
      (∀ i : Nat, (exp'[i]?).map ExperienceEntry.title =
        (exp[i]?).map ExperienceEntry.title) ∧
      (∀ i : Nat, (exp'[i]?).map ExperienceEntry.location =
        (exp[i]?).map ExperienceEntry.location) ∧
      (∀ i : Nat, (exp'[i]?).map ExperienceEntry.dates =
        (exp[i]?).map ExperienceEntry.dates) ∧
      (∀ i : Nat, ∀ g, gbs[i]? = some g →
        (exp'[i]?).map ExperienceEntry.bullets =
          (exp[i]?).map (fun _ => g.bullets.getD [])) ∧
      (∀ i : Nat, gbs[i]? = none →
        (exp'[i]?).map ExperienceEntry.bullets =
          (exp[i]?).map ExperienceEntry.bullets) := by
  refine ⟨mergeBullets exp gbs, merge_experience_eq fixed gen gbs exp hg hf,
    mergeBullets_length exp gbs, ?_, ?_, ?_, ?_, ?_, ?_⟩
  · intro i
    rw [mergeBullets_getElem? exp gbs i]
    cases hx : exp[i]? <;> cases hy : gbs[i]? <;> simp
  · intro i
    rw [mergeBullets_getElem? exp gbs i]
    cases hx : exp[i]? <;> cases hy : gbs[i]? <;> simp
  · intro i
    rw [mergeBullets_getElem? exp gbs i]
    cases hx : exp[i]? <;> cases hy : gbs[i]? <;> simp
  · intro i
    rw [mergeBullets_getElem? exp gbs i]
    cases hx : exp[i]? <;> cases hy : gbs[i]? <;> simp
  · intro i g hgy
    rw [mergeBullets_getElem? exp gbs i, hgy]
    cases hx : exp[i]? <;> simp
  · intro i hgy
    rw [mergeBullets_getElem? exp gbs i, hgy]
    cases hx : exp[i]? <;> simp

/-- C7 witness: a generated list with one bullet-set merged over a fixed
experience list of two entries. -/
theorem merge_experience_pointwise_witness :
    genC7.experience_bullets = some [⟨some ["n1"]⟩] ∧
    fixedC7.experience = some [expA, expB] ∧
    (∃ exp', (merge_resume_data fixedC7 genC7).experience = some exp' ∧
      exp'.length = ([expA, expB] : List ExperienceEntry).length ∧
      (∀ i : Nat, (exp'[i]?).map ExperienceEntry.company =
        (([expA, expB] : List ExperienceEntry)[i]?).map ExperienceEntry.company) ∧
      (∀ i : Nat, (exp'[i]?).map ExperienceEntry.title =
        (([expA, expB] : List ExperienceEntry)[i]?).map ExperienceEntry.title) ∧
      (∀ i : Nat, (exp'[i]?).map ExperienceEntry.location =
        (([expA, expB] : List ExperienceEntry)[i]?).map ExperienceEntry.location) ∧
      (∀ i : Nat, (exp'[i]?).map ExperienceEntry.dates =
        (([expA, expB] : List ExperienceEntry)[i]?).map ExperienceEntry.dates) ∧
      (∀ i : Nat, ∀ g, (([⟨some ["n1"]⟩] : List GeneratedExpEntry)[i]?) = some g →
        (exp'[i]?).map ExperienceEntry.bullets =
          (([expA, expB] : List ExperienceEntry)[i]?).map (fun _ => g.bullets.getD [])) ∧
      (∀ i : Nat, (([⟨some ["n1"]⟩] : List GeneratedExpEntry)[i]?) = none →
        (exp'[i]?).map ExperienceEntry.bullets =
          (([expA, expB] : List ExperienceEntry)[i]?).map ExperienceEntry.bullets)) :=
  ⟨rfl, rfl, merge_experience_pointwise fixedC7 genC7 [⟨some ["n1"]⟩] [expA, expB] rfl rfl⟩

/-- C8: resolving the three cascading layers by the recursive dict merge
gives (i) the request-layer scalar for any key path bound in all three
layers (the presence hypotheses on the lower layers are stated as in the
claim but are not needed: the request layer always wins), (ii) the default
value for a key path that neither override layer touches (no binding appears
along the path — a proper-segment binding to a scalar would replace the
whole subtree), and (iii) a `None` override is a no-op.  The key-uniqueness
hypotheses hold for any tree parsed from YAML.  The embedding is a pure
function, matching the code: `merge_variables` deep-copies its base and only
reads its updates, so neither input mapping is mutated. -/
theorem variable_resolution_cascade :
    (∀ (defaults appOv reqOv : VarTree) (k : String) (ks : List String) (n : Int),
        keysNodup reqOv = true →
        pathLookup defaults (k :: ks) ≠ none →
        pathLookup appOv (k :: ks) ≠ none →
        pathLookup reqOv (k :: ks) = some (.leaf n) →
        pathLookup (resolve_variables defaults (some appOv) (some reqOv)) (k :: ks) =
          some (.leaf n)) ∧
    (∀ (defaults appOv reqOv : VarTree) (k : String) (ks : List String) (v : VarTree),
        keysNodup appOv = true → keysNodup reqOv = true →
        untouched appOv (k :: ks) = true → untouched reqOv (k :: ks) = true →
        pathLookup defaults (k :: ks) = some v →
        pathLookup (resolve_variables defaults (some appOv) (some reqOv)) (k :: ks) =
          some v) ∧
    (∀ base : VarTree, merge_variables base none = base) := by
  refine ⟨?_, ?_, fun base => rfl⟩
  · intro defaults appOv reqOv k ks n hr _ _ hpath
    exact mergeVM_pathLookup_leaf reqOv hr _ k ks n hpath
  · intro defaults appOv reqOv k ks v ha hr hua hur hpath
    show pathLookup (mergeVM (mergeVM defaults appOv) reqOv) (k :: ks) = some v
    rw [mergeVM_pathLookup_untouched reqOv hr _ _ hur,
        mergeVM_pathLookup_untouched appOv ha _ _ hua]
    exact hpath

/-- C8 witness: with defaults `x: (y: 1), z: 2`, application override
`x: (y: 5)` and request override `x: (y: 9)`, the path `x.y` resolves to the
request value 9 and the path `z`, present only in the defaults, resolves to
2; a `None` override returns the defaults. -/
theorem variable_resolution_cascade_witness :
    pathLookup (resolve_variables dfltW (some appW) (some reqW)) ["x", "y"] =
      some (.leaf 9) ∧
    pathLookup (resolve_variables dfltW (some appW) (some reqW)) ["z"] =
      some (.leaf 2) ∧
    merge_variables dfltW none = dfltW :=
  ⟨variable_resolution_cascade.1 dfltW appW reqW "x" ["y"] 9 (by decide) (by decide)
      (by decide) (by decide),
   variable_resolution_cascade.2.1 dfltW appW reqW "z" [] (.leaf 2) (by decide) (by decide)
      (by decide) (by decide) (by decide),
   variable_resolution_cascade.2.2 dfltW⟩

/-- C3 counterexample: the claim as stated is false for deletions of the
latest version.  Creating versions 1 and 2, deleting 2 (the latest) out of
band, then creating again returns 2 a second time: the allocation, a pure
function of the on-disk maximum, reuses the deleted number. -/
theorem version_reuse_counterexample :
    (runOps [] opsReuseW).2 = [1, 2, 2] ∧ ¬ ((runOps [] opsReuseW).2).Nodup := by
  decide

/-- C3 (amended): starting from any store contents, over any operation
sequence whose deletions each remove a present, non-latest version, the
numbers returned by the `create` calls are exactly the consecutive run
starting at `max(existing) + 1` (1 on an empty store): consecutive returns
increase by exactly 1, no returned number repeats, and every returned number
is strictly larger than everything initially stored.  Deleting the latest
version instead lowers the maximum and allows its number to be reused. -/
theorem version_allocation_amended (s : List Nat) (ops : List VOp) (h : OkOps s ops) :
    (runOps s ops).2 = consecFrom (new_version_num s) (countCreates ops) ∧
    List.Chain' (fun a b => b = a + 1) (runOps s ops).2 ∧
    ((runOps s ops).2).Nodup ∧
    (∀ r ∈ (runOps s ops).2, ∀ v ∈ s, v < r) := by
  have hchar := runOps_returns ops s h
  refine ⟨hchar, ?_, ?_, ?_⟩
  · rw [hchar]
    exact consecFrom_chain _ _
  · rw [hchar]
    exact consecFrom_nodup _ _
  · intro r hr v hv
    rw [hchar] at hr
    have h1 := consecFrom_mem _ _ _ hr
    have h2 := lt_new_version_num s v hv
    omega

/-- C3 witness: two creations, deletion of the non-latest version 1, then a
third creation return 1, 2, 3. -/
theorem version_allocation_witness :
    OkOps [] opsOkW ∧
    ((runOps [] opsOkW).2 = consecFrom (new_version_num []) (countCreates opsOkW) ∧
      List.Chain' (fun a b => b = a + 1) (runOps [] opsOkW).2 ∧
      ((runOps [] opsOkW).2).Nodup ∧
      (∀ r ∈ (runOps [] opsOkW).2, ∀ v ∈ ([] : List Nat), v < r)) :=
  ⟨by decide, version_allocation_amended [] opsOkW (by decide)⟩

/-- C1 counterexample: the claim as stated is false.  With a previously
finalized record in the slot, a finalize request whose renderer fails during
layout reports the failure, but the finalized YAML slot has already been
overwritten with the newly filtered record (main.py writes
`finalized_resume.yaml` before the PDF try-block). -/
theorem finalize_atomicity_counterexample :
    finalize_resume fitsCex false stW (some recCex) selNone "v2" =
      .error (.renderFailure, st1W) ∧
    st1W.finalizedYaml ≠ stW.finalizedYaml :=
  ⟨rfl, by decide⟩

/-- C1 (amended): failures before the YAML write (unparsable request YAML,
record without a name) change no on-disk state and are reported; a renderer
failure during layout is reported and leaves the finalized PDF, the recorded
name and the base-version provenance at their previous values, but the
finalized YAML slot has by then already been overwritten with the filtered
record — it is not left at its previous value. -/
theorem finalize_failure_states (fits : String → Bool) (renderOk : Bool) (st : DiskState)
    (py : Option ResumeRecord) (sel : SelectionMap) (bvf : String)
    (e : FinalizeErr) (st' : DiskState)
    (h : finalize_resume fits renderOk st py sel bvf = .error (e, st')) :
    (e = .invalidYaml → st' = st) ∧
    (e = .missingName → st' = st) ∧
    (e = .renderFailure →
      st'.finalizedPdf = st.finalizedPdf ∧
      st'.detailsName = st.detailsName ∧
      st'.finalizedBaseVersion = st.finalizedBaseVersion ∧
      ∃ data, py = some data ∧ st'.finalizedYaml = finalize_record data sel) := by
  cases py with
  | none =>
    simp only [finalize_resume, Except.error.injEq, Prod.mk.injEq] at h
    obtain ⟨rfl, rfl⟩ := h
    simp
  | some data =>
    cases hfr : finalize_record data sel with
    | none =>
      simp only [finalize_resume, hfr, Except.error.injEq, Prod.mk.injEq] at h
      obtain ⟨rfl, rfl⟩ := h
      simp
    | some fd =>
      cases renderOk with
      | true => simp [finalize_resume, hfr] at h
      | false =>
        simp only [finalize_resume, hfr, Bool.false_eq_true, if_false,
          Except.error.injEq, Prod.mk.injEq] at h
        obtain ⟨rfl, rfl⟩ := h
        refine ⟨fun hc => absurd hc (by simp), fun hc => absurd hc (by simp),
          fun _ => ⟨rfl, rfl, rfl, ⟨data, rfl, ?_⟩⟩⟩
        simp [hfr]

/-- C1 witness: the failing run of the counterexample instantiates the
amended theorem; the error is a render failure and the conclusion exhibits
the overwritten YAML slot together with the untouched PDF and provenance. -/
theorem finalize_failure_states_witness :
    finalize_resume fitsCex false stW (some recCex) selNone "v2" =
      .error (.renderFailure, st1W) ∧
    ((FinalizeErr.renderFailure = .invalidYaml → st1W = stW) ∧
      (FinalizeErr.renderFailure = .missingName → st1W = stW) ∧
      (FinalizeErr.renderFailure = .renderFailure →
        st1W.finalizedPdf = stW.finalizedPdf ∧
        st1W.detailsName = stW.detailsName ∧
        st1W.finalizedBaseVersion = stW.finalizedBaseVersion ∧
        ∃ data, (some recCex : Option ResumeRecord) = some data ∧
          st1W.finalizedYaml = finalize_record data selNone)) :=
  ⟨rfl, finalize_failure_states fitsCex false stW (some recCex) selNone "v2"
    .renderFailure st1W rfl⟩

/-- C2 counterexample: the claim as stated is false.  On a successful
finalize of a record whose skills get trimmed, the record written to the
finalized YAML slot still holds both skills while the rendered PDF was
generated from the trimmed record: persisted record and rendered source
diverge. -/
theorem finalize_divergence_counterexample :
    finalize_resume fitsC2 true st0W (some recSkillW) selNone "v1" = .ok stOkW ∧
    stOkW.finalizedYaml ≠ stOkW.finalizedPdf :=
  ⟨rfl, by decide⟩

/-- C2 (amended): on every successful finalize, the record persisted to the
finalized slot is the filtered record BEFORE skill-list trimming, and the
rendered document is generated from the fit engine's trimmed copy of that
same persisted record; the two coincide exactly when trimming leaves the
filtered record unchanged. -/
theorem finalize_persist_vs_render (fits : String → Bool) (renderOk : Bool)
    (st : DiskState) (py : Option ResumeRecord) (sel : SelectionMap) (bvf : String)
    (st' : DiskState)
    (h : finalize_resume fits renderOk st py sel bvf = .ok st') :
    ∃ f, st'.finalizedYaml = some f ∧
      st'.finalizedPdf = some (preprocess_data_for_fitting fits f) ∧
      (preprocess_data_for_fitting fits f = f → st'.finalizedPdf = st'.finalizedYaml) := by
  cases py with
  | none => simp [finalize_resume] at h
  | some data =>
    cases hfr : finalize_record data sel with
    | none => simp [finalize_resume, hfr] at h
    | some fd =>
      cases renderOk with
      | false =>
        simp [finalize_resume, hfr] at h
      | true =>
        simp only [finalize_resume, hfr, if_true, Except.ok.injEq] at h
        subst h
        exact ⟨fd, rfl, rfl, fun hid => by simp [hid]⟩

/-- C2 witness: the successful run of the counterexample instantiates the
amended theorem. -/
theorem finalize_persist_vs_render_witness :
    finalize_resume fitsC2 true st0W (some recSkillW) selNone "v1" = .ok stOkW ∧
    (∃ f, stOkW.finalizedYaml = some f ∧
      stOkW.finalizedPdf = some (preprocess_data_for_fitting fitsC2 f) ∧
      (preprocess_data_for_fitting fitsC2 f = f →
        stOkW.finalizedPdf = stOkW.finalizedYaml)) :=
  ⟨rfl, finalize_persist_vs_render fitsC2 true st0W (some recSkillW) selNone "v1"
    stOkW rfl⟩
